import Mathlib

/-!
Verification development for the Platypus logic-tick scheduler
(`handler-logic`, src/unnamed/part_000) and the recursive collision group
(`CollisionGroup`, src/unnamed/part_001).

JavaScript numbers are modelled as exact rationals (the claims under study
concern the rational structure of the arithmetic: floors, ratios, window
comparisons).  The one place where a division by zero can occur in the
source (`this.message.deltaT = this.leftoverTime / cycles` with
`cycles === 0`) is modelled explicitly with a JavaScript-number type `JSNum`
that carries infinities and NaN, and a division `jsDiv` following the
IEEE/JS rules for finite operands.
-/

namespace Platypus

/-- A JavaScript number resulting from arithmetic on finite values:
either a finite (rational) value, an infinity, or NaN. -/
inductive JSNum where
  | fin (q : ℚ)
  | posInf
  | negInf
  | nan
deriving DecidableEq, Repr

/-- JavaScript division `a / b` of finite numbers: for `b = 0` it yields
NaN (when `a = 0`) or a signed infinity, otherwise the exact quotient. -/
def jsDiv (a b : ℚ) : JSNum :=
  if b = 0 then
    (if a = 0 then JSNum.nan else if 0 < a then JSNum.posInf else JSNum.negInf)
  else JSNum.fin (a / b)

/-- The scheduler's camera window `this.camera` (src/unnamed/part_000,
lines 14-20). -/
structure Camera where
  left : ℚ
  top : ℚ
  width : ℚ
  height : ℚ
  buffer : ℚ
deriving DecidableEq, Repr

/-- An entity as seen by the scheduler: `x` is `none` when
`typeof child.x === 'undefined'`; `messageIds` is what
`entity.getMessageIds()` returns; `handlesLogic` is the truthiness of
`child.trigger('handle-logic', ...)` (listeners remained). -/
structure Entity where
  eid : ℕ
  x : Option ℚ
  y : ℚ
  messageIds : List String
  handlesLogic : Bool
deriving DecidableEq, Repr

/-- The mutable state of the `handler-logic` component. `messageDeltaT` is
`this.message.deltaT` (the shared per-step message object's delta). -/
structure SchedState where
  stepLength : ℚ
  leftoverTime : ℚ
  maximumStepsPerTick : ℕ
  camera : Camera
  messageDeltaT : JSNum
  entities : List Entity
deriving Repr

/-- The component constructor (src/unnamed/part_000, lines 2-29):
`stepLength = definition.stepLength || 15`, `leftoverTime = 0`,
`maximumStepsPerTick = 10`, camera zeroed with
`buffer = definition.buffer || 0`, `message.deltaT = stepLength`,
empty entity list.  A falsy (`0`) configured value is modelled as `0`. -/
def mkComponent (stepLengthDef : ℚ) (bufferDef : ℚ) : SchedState :=
  let sl : ℚ := if stepLengthDef = 0 then 15 else stepLengthDef
  { stepLength := sl
    leftoverTime := 0
    maximumStepsPerTick := 10
    camera := { left := 0, top := 0, width := 0, height := 0, buffer := bufferDef }
    messageDeltaT := JSNum.fin sl
    entities := [] }

/-- The loop body of `proto['child-entity-added']` (lines 32-43): walk the
entity's message ids and push the entity on the first `'handle-logic'`
found, then break (so at most one push per notification). -/
def addIfHandlesLogic (ents : List Entity) (e : Entity) : List String → List Entity
  | [] => ents
  | mid :: rest =>
      if mid = "handle-logic" then ents ++ [e] else addIfHandlesLogic ents e rest

/-- `proto['child-entity-added']` (src/unnamed/part_000, lines 32-43). -/
def childEntityAdded (s : SchedState) (e : Entity) : SchedState :=
  { s with entities := addIfHandlesLogic s.entities e e.messageIds }

/-- The payload of a `camera-update` message. -/
structure CameraMsg where
  viewportLeft : ℚ
  viewportTop : ℚ
  viewportWidth : ℚ
  viewportHeight : ℚ
deriving DecidableEq, Repr

/-- `proto['camera-update']` (src/unnamed/part_000, lines 45-53): copy the
viewport rectangle and, when `!this.camera.buffer` (falsy, i.e. zero),
set the default `buffer = width / 4`. -/
def cameraUpdate (cam : Camera) (m : CameraMsg) : Camera :=
  let c : Camera :=
    { cam with left := m.viewportLeft, top := m.viewportTop,
               width := m.viewportWidth, height := m.viewportHeight }
  if c.buffer = 0 then { c with buffer := c.width / 4 } else c

/-- `proto['camera-update']` lifted to the whole component state. -/
def cameraUpdateMsg (s : SchedState) (m : CameraMsg) : SchedState :=
  { s with camera := cameraUpdate s.camera m }

/-- The visibility filter of the tick loop (line 74): entities whose `x`
is undefined always pass; otherwise the position must lie in the buffered
camera window on both axes. -/
def entInWindow (cam : Camera) (e : Entity) : Bool :=
  match e.x with
  | none => true
  | some xv =>
      decide (cam.left - cam.buffer ≤ xv) &&
      decide (xv ≤ cam.left + cam.width + cam.buffer) &&
      decide (cam.top - cam.buffer ≤ e.y) &&
      decide (e.y ≤ cam.top + cam.height + cam.buffer)

/-- One pass of the inner entity loop (lines 70-79): iterate from the last
index down to `0`; in-window entities are dispatched (`trigger
('handle-logic')`) and spliced out when the trigger reports no remaining
listeners; out-of-window entities are untouched.  Returns the remaining
list and the dispatched entities in dispatch order (highest index
first). -/
def stepPass (cam : Camera) : List Entity → List Entity × List Entity
  | [] => ([], [])
  | e :: rest =>
      let p := stepPass cam rest
      if entInWindow cam e then
        if e.handlesLogic then (e :: p.1, p.2 ++ [e]) else (p.1, p.2 ++ [e])
      else (e :: p.1, p.2)

/-- The outer cycle loop of `proto['tick']` (lines 70-90): run `n` steps,
each being one entity pass followed by one `check-collision-group`
trigger.  Each dispatched entity is paired with the (shared) message's
`deltaT` at dispatch time.  Returns the final entity list and the per-step
dispatch lists, first step first. -/
def iterSteps (cam : Camera) (msgDT : JSNum) :
    List Entity → ℕ → List Entity × List (List (Entity × JSNum))
  | ents, 0 => (ents, [])
  | ents, n + 1 =>
      let p := stepPass cam ents
      let q := iterSteps cam msgDT p.1 n
      (q.1, (p.2.map (fun e => (e, msgDT))) :: q.2)

/-- The observable outcome of one `tick`/`logic` invocation: the new
component state, the dispatched `handle-logic` messages per executed step,
and the number of `check-collision-group` triggers (one per step). -/
structure TickResult where
  state : SchedState
  stepDispatches : List (List (Entity × JSNum))
  collisionChecks : ℕ
deriving Repr

/-- `proto['tick'] = proto['logic']` (src/unnamed/part_000, lines 55-94):
accumulate `deltaT`, take `cycles = floor(leftoverTime / stepLength)`,
set the shared message's delta to `leftoverTime / cycles` (a JS division,
performed before clamping and possibly by zero), zero `leftoverTime`,
clamp `cycles` to `maximumStepsPerTick`, and run that many steps. -/
def tick (s : SchedState) (deltaT : ℚ) : TickResult :=
  let lt : ℚ := s.leftoverTime + deltaT
  let cycles : ℤ := ⌊lt / s.stepLength⌋
  let msgDT : JSNum := jsDiv lt (cycles : ℚ)
  let n : ℕ := (min cycles (s.maximumStepsPerTick : ℤ)).toNat
  let p := iterSteps s.camera msgDT s.entities n
  { state := { s with leftoverTime := 0, messageDeltaT := msgDT, entities := p.1 }
    stepDispatches := p.2
    collisionChecks := n }

/-! ### Collision group (src/unnamed/part_001) -/

/-- Modelled from the spec: `platypus.AABB` (not under src/), an
axis-aligned bounding-box value type "with reset/include/merge semantics"
(spec section 2): either the reset/empty box or a rectangle. -/
inductive Box where
  | empty : Box
  | rect (left : ℚ) (right : ℚ) (top : ℚ) (bottom : ℚ) : Box
deriving DecidableEq, Repr

/-- Modelled from the spec: `AABB.include`, merging another box into this
one (the union); including into or from the reset box is the identity. -/
def Box.includeBox : Box → Box → Box
  | Box.empty, b => b
  | b, Box.empty => b
  | Box.rect l1 r1 t1 b1, Box.rect l2 r2 t2 b2 =>
      Box.rect (min l1 l2) (max r1 r2) (min t1 t2) (max b1 b2)

/-- The fold of `include` over a list of boxes starting from a fresh
(`new platypus.AABB()`) empty box. -/
def unionBoxes (bs : List Box) : Box :=
  bs.foldl Box.includeBox Box.empty

/-- A member entity as the collision group sees it.  `eid` models
JavaScript reference identity (`===`); `collisionTypes` is `none` when the
entity declares no `collisionTypes`; `solidCollisions` maps a collision
type to its configured response list; `aabbFor` / `prevAabbFor` are
modelled from the spec: the entity-level `getAABB(type)` /
`getPreviousAABB(type)` of the external collision component, returning
the box of the entity's shapes of that collision type (`Box.empty` when
it has none). -/
structure CGEntity where
  eid : ℕ
  collisionTypes : Option (List String)
  solidCollisions : String → List String
  immobile : Bool
  aabbFor : String → Box
  prevAabbFor : String → Box

/-- The per-type admission loop of `addCollisionEntity`
(src/unnamed/part_001, lines 160-172): for each declared collision type
whose `solidCollisions` entry is nonempty (and the entity not immobile)
the entity is pushed onto `solidEntities` — once per such type. -/
def addLoop (e : CGEntity) : List String → List CGEntity → List CGEntity
  | [], solids => solids
  | t :: rest, solids =>
      addLoop e rest
        (if (e.solidCollisions t).length ≠ 0 ∧ e.immobile = false
         then solids ++ [e] else solids)

/-- `addCollisionEntity` (src/unnamed/part_001, lines 160-172) restricted
to its effect on `solidEntities` (the trailing `updateAABB()` call rewrites
only the cached aggregate box, never the membership list). -/
def addCollisionEntity (solids : List CGEntity) (e : CGEntity) : List CGEntity :=
  match e.collisionTypes with
  | none => solids
  | some types => addLoop e types solids

/-- The number of pushes `addCollisionEntity` performs: one per declared
collision type with a nonempty `solidCollisions` list, zero when the
entity is immobile or declares no collision types. -/
def qualifyingCount (e : CGEntity) : ℕ :=
  match e.collisionTypes with
  | none => 0
  | some types =>
      if e.immobile then 0
      else types.countP (fun t => decide ((e.solidCollisions t).length ≠ 0))

/-- Concrete entity for counterexamples: two collision types, both with a
configured solid response, not immobile. -/
def exEntityAB : CGEntity :=
  { eid := 7
    collisionTypes := some ["a", "b"]
    solidCollisions := fun _ => ["response"]
    immobile := false
    aabbFor := fun _ => Box.empty
    prevAabbFor := fun _ => Box.empty }

mutual
/-- A collision group as a finite composition tree (cycles are disallowed
by construction, spec section 3): the owner entity's id, the cached
aggregate boxes `this.aabb` and `this.prevAABB`, and the `solidEntities`
members in order. -/
inductive GTree where
  | node : ℕ → Box → Box → Members → GTree

/-- The `solidEntities` list of a group; a member entity may expose a
nested collision group of its own (`grouped`). -/
inductive Members where
  | nil : Members
  | plain : CGEntity → Members → Members
  | grouped : CGEntity → GTree → Members → Members
end

/-- The group's cached `this.aabb`. -/
def GTree.cachedAABB : GTree → Box
  | GTree.node _ a _ _ => a

/-- The group's cached `this.prevAABB`. -/
def GTree.cachedPrevAABB : GTree → Box
  | GTree.node _ _ p _ => p

/-- JavaScript truthiness of the `collisionType` argument:
`!collisionType` holds when the argument is missing or the empty
string. -/
def ctFalsy : Option String → Bool
  | none => true
  | some s => s == ""

/-- Modelled from the spec: the entity-level `getAABB(collisionType)` of a
plain member (external collision component). -/
def entGetAABB (e : CGEntity) : Option String → Box
  | none => Box.empty
  | some t => e.aabbFor t

/-- Modelled from the spec: the entity-level
`getPreviousAABB(collisionType)` of a plain member. -/
def entGetPrevAABB (e : CGEntity) : Option String → Box
  | none => Box.empty
  | some t => e.prevAabbFor t

mutual
/-- `getAABB` (src/unnamed/part_001, lines 233-252): with a falsy filter,
return the cached `this.aabb`; otherwise union into a fresh box, over all
members, the member's `getAABB(collisionType)` — switching to the member's
nested collision group when the member is not the owner and exposes
one. -/
def gtGetAABB : GTree → Option String → Box
  | GTree.node own aabb _ ms, ct =>
      if ctFalsy ct then aabb else membersAABB own ms ct Box.empty

/-- The member loop of `getAABB` (lines 242-249), accumulating
`aabb.include(childEntity.getAABB(collisionType))`. -/
def membersAABB : ℕ → Members → Option String → Box → Box
  | _, Members.nil, _, acc => acc
  | own, Members.plain e ms, ct, acc =>
      membersAABB own ms ct (acc.includeBox (entGetAABB e ct))
  | own, Members.grouped e g ms, ct, acc =>
      if e.eid == own
      then membersAABB own ms ct (acc.includeBox (entGetAABB e ct))
      else membersAABB own ms ct (acc.includeBox (gtGetAABB g ct))
end

mutual
/-- `getPreviousAABB` (src/unnamed/part_001, lines 254-273), the
previous-frame analogue of `getAABB`. -/
def gtGetPrevAABB : GTree → Option String → Box
  | GTree.node own _ prev ms, ct =>
      if ctFalsy ct then prev else membersPrevAABB own ms ct Box.empty

/-- The member loop of `getPreviousAABB` (lines 263-270). -/
def membersPrevAABB : ℕ → Members → Option String → Box → Box
  | _, Members.nil, _, acc => acc
  | own, Members.plain e ms, ct, acc =>
      membersPrevAABB own ms ct (acc.includeBox (entGetPrevAABB e ct))
  | own, Members.grouped e g ms, ct, acc =>
      if e.eid == own
      then membersPrevAABB own ms ct (acc.includeBox (entGetPrevAABB e ct))
      else membersPrevAABB own ms ct (acc.includeBox (gtGetPrevAABB g ct))
end

mutual
/-- Specification-side description of the filtered query: the boxes of all
matching leaf shapes across every nesting level (owner members counted as
leaves, matching the `childEntity !== this.owner` guard). -/
def gtLeafBoxes : GTree → String → List Box
  | GTree.node own _ _ ms, t => membersLeafBoxes own ms t

/-- Leaf boxes contributed by a member list. -/
def membersLeafBoxes : ℕ → Members → String → List Box
  | _, Members.nil, _ => []
  | own, Members.plain e ms, t => e.aabbFor t :: membersLeafBoxes own ms t
  | own, Members.grouped e g ms, t =>
      (if e.eid == own then [e.aabbFor t] else gtLeafBoxes g t)
        ++ membersLeafBoxes own ms t
end

mutual
/-- Previous-frame leaf boxes across every nesting level. -/
def gtPrevLeafBoxes : GTree → String → List Box
  | GTree.node own _ _ ms, t => membersPrevLeafBoxes own ms t

/-- Previous-frame leaf boxes contributed by a member list. -/
def membersPrevLeafBoxes : ℕ → Members → String → List Box
  | _, Members.nil, _ => []
  | own, Members.plain e ms, t => e.prevAabbFor t :: membersPrevLeafBoxes own ms t
  | own, Members.grouped e g ms, t =>
      (if e.eid == own then [e.prevAabbFor t] else gtPrevLeafBoxes g t)
        ++ membersPrevLeafBoxes own ms t
end

/-- Witness entity: the carrying platform (group owner, id 0). -/
def ePlatW : CGEntity :=
  { eid := 0, collisionTypes := some ["solid"],
    solidCollisions := fun _ => ["response"], immobile := false,
    aabbFor := fun t => if t == "solid" then Box.rect 0 10 0 2 else Box.empty,
    prevAabbFor := fun t => if t == "solid" then Box.rect 0 10 1 3 else Box.empty }

/-- Witness entity: the carried box (id 1), owner of the nested group. -/
def eBoxW : CGEntity :=
  { eid := 1, collisionTypes := some ["solid"],
    solidCollisions := fun _ => ["response"], immobile := false,
    aabbFor := fun t => if t == "solid" then Box.rect 2 4 2 4 else Box.empty,
    prevAabbFor := fun t => if t == "solid" then Box.rect 2 4 3 5 else Box.empty }

/-- Witness entity: the passenger (id 2) carried by the box. -/
def ePassW : CGEntity :=
  { eid := 2, collisionTypes := some ["solid"],
    solidCollisions := fun _ => ["response"], immobile := false,
    aabbFor := fun t => if t == "solid" then Box.rect 3 5 4 6 else Box.empty,
    prevAabbFor := fun t => if t == "solid" then Box.rect 3 5 5 7 else Box.empty }

/-- The nested group owned by the box, containing the box itself and the
passenger. -/
def innerW : GTree :=
  GTree.node 1 (Box.rect 2 5 2 6) (Box.rect 2 5 3 7)
    (Members.plain eBoxW (Members.plain ePassW Members.nil))

/-- The two-level group of the spec's example (platform carrying a box
carrying a passenger); the cached boxes are deliberately distinct from the
filtered union, so the no-filter query observably returns the cache. -/
def outerW : GTree :=
  GTree.node 0 (Box.rect (-1) 11 (-1) 7) (Box.rect (-2) 12 (-2) 8)
    (Members.plain ePlatW (Members.grouped eBoxW innerW Members.nil))

/-! ### Relocation protocol (flat groups) -/

/-- The per-entity fields read and written by the relocation protocol
(positions, previous positions, and the `saveDX/saveDY/saveOX/saveOY`
scratch fields attached by `prepareCollision`). -/
structure REnt where
  x : ℚ
  y : ℚ
  previousX : ℚ
  previousY : ℚ
  saveDX : ℚ
  saveDY : ℚ
  saveOX : ℚ
  saveOY : ℚ
deriving DecidableEq, Repr

/-- A collision group for the relocation protocol, with members that are
plain entities (no nested group): the owner's id, the `solidEntities`
member ids in order, and an id-indexed store modelling JavaScript object
references. -/
structure RelocGroup where
  ownerId : ℕ
  memberIds : List ℕ
  store : ℕ → REnt

/-- The `collisionData` interface as `relocateEntity` consumes it: for
each axis, the list of `getXEntry(i).thisShape.owner` /
`getYEntry(i).thisShape.owner` entity ids. -/
structure CData where
  xOwners : List ℕ
  yOwners : List ℕ

/-- Modelled from the spec: the entity-level `relocateEntity(vector)` of a
plain member (external collision component), which moves the entity to the
given resolved position (spec section 4.2: "recursively relocates every
member at vector - member.offset"). -/
def entRelocate (e : REnt) (vx vy : ℚ) : REnt :=
  { e with x := vx, y := vy }

/-- Pointwise update of the id-indexed store. -/
def updStore (s : ℕ → REnt) (i : ℕ) (r : REnt) : ℕ → REnt :=
  fun j => if j = i then r else s j

/-- One iteration of the member loop of `relocateEntity`
(src/unnamed/part_001, lines 378-390): relocate the member at the
owner-offset-translated vector, add the member's own saved delta, and for
non-owner members also add the owner's saved delta. -/
def relocStep (own : REnt) (vx vy : ℚ) (i ownerId : ℕ) (e : REnt) : REnt :=
  let e1 := entRelocate e (vx - e.saveOX) (vy - e.saveOY)
  let e2 := { e1 with x := e1.x + e1.saveDX, y := e1.y + e1.saveDY }
  if i = ownerId then e2
  else { e2 with x := e2.x + own.saveDX, y := e2.y + own.saveDY }

/-- The member loop of `relocateEntity` over the `solidEntities` ids in
order; the owner's record is re-read from the current store at each
iteration, as the source reads `this.owner.saveDX` at use time. -/
def relocLoop (ownerId : ℕ) (vx vy : ℚ) : List ℕ → (ℕ → REnt) → (ℕ → REnt)
  | [], s => s
  | i :: rest, s =>
      relocLoop ownerId vx vy rest
        (updStore s i (relocStep (s ownerId) vx vy i ownerId (s i)))

/-- `relocateEntity` (src/unnamed/part_001, lines 356-391): update the
owner's saved deltas by the difference between the proposed vector and the
owner's previous position, zero the saved delta of any axis on which the
owner itself appears as the colliding shape in `collisionData`, then run
the member loop. -/
def relocateEntity (g : RelocGroup) (vx vy : ℚ) (cd : CData) : RelocGroup :=
  let ow := g.store g.ownerId
  let ow1 : REnt :=
    { ow with saveDX := ow.saveDX - (vx - ow.previousX)
              saveDY := ow.saveDY - (vy - ow.previousY) }
  let ow2 : REnt := if cd.xOwners.contains g.ownerId then { ow1 with saveDX := 0 } else ow1
  let ow3 : REnt := if cd.yOwners.contains g.ownerId then { ow2 with saveDY := 0 } else ow2
  { g with store := relocLoop g.ownerId vx vy g.memberIds (updStore g.store g.ownerId ow3) }

/-- Concrete relocation group for the witness: owner (id 0) and one
carried member (id 1), the owner itself among the members. -/
def relocW : RelocGroup :=
  { ownerId := 0
    memberIds := [0, 1]
    store := fun i =>
      if i = 0 then
        { x := 9, y := 9, previousX := 1, previousY := 2,
          saveDX := 10, saveDY := 20, saveOX := 0, saveOY := 0 }
      else
        { x := 0, y := 0, previousX := 0, previousY := 0,
          saveDX := 3, saveDY := 4, saveOX := 2, saveOY := 1 } }

/-- Concrete collision data for the witness: the owner appears as the
colliding shape in one x-axis entry and in no y-axis entry. -/
def cdW : CData :=
  { xOwners := [0], yOwners := [] }

/-! ### Helper lemmas about the scheduler loops -/

theorem iterSteps_snd_length (cam : Camera) (dt : JSNum) :
    ∀ (n : ℕ) (ents : List Entity), ((iterSteps cam dt ents n).2).length = n := by
  intro n
  induction n with
  | zero => intro ents; rfl
  | succ k ih =>
      intro ents
      simp only [iterSteps, List.length_cons]
      rw [ih]

theorem iterSteps_dispatch_delta (cam : Camera) (dt : JSNum) :
    ∀ (n : ℕ) (ents : List Entity), ∀ step ∈ (iterSteps cam dt ents n).2,
      ∀ p ∈ step, p.2 = dt := by
  intro n
  induction n with
  | zero => intro ents step hstep; simp [iterSteps] at hstep
  | succ k ih =>
      intro ents step hstep p hp
      simp only [iterSteps, List.mem_cons] at hstep
      rcases hstep with h | h
      · subst h
        rcases List.mem_map.mp hp with ⟨e, _, he⟩
        exact he ▸ rfl
      · exact ih _ step h p hp

theorem stepPass_dispatched_in_window (cam : Camera) :
    ∀ (l : List Entity), ∀ f ∈ (stepPass cam l).2, entInWindow cam f = true := by
  intro l
  induction l with
  | nil => intro f hf; simp [stepPass] at hf
  | cons e rest ih =>
      intro f hf
      simp only [stepPass] at hf
      by_cases hw : entInWindow cam e
      · rw [if_pos hw] at hf
        by_cases hl : e.handlesLogic
        · rw [if_pos hl] at hf
          rcases List.mem_append.mp hf with h | h
          · exact ih f h
          · rw [List.mem_singleton.mp h]; exact hw
        · rw [if_neg hl] at hf
          rcases List.mem_append.mp hf with h | h
          · exact ih f h
          · rw [List.mem_singleton.mp h]; exact hw
      · rw [if_neg hw] at hf
        exact ih f hf

theorem stepPass_out_of_window_kept (cam : Camera) :
    ∀ (l : List Entity) (e : Entity), e ∈ l → entInWindow cam e = false →
      e ∈ (stepPass cam l).1 := by
  intro l
  induction l with
  | nil => intro e he _; simp at he
  | cons f rest ih =>
      intro e he hw
      rcases List.mem_cons.mp he with h | h
      · subst h
        simp only [stepPass, hw]
        simp
      · have hmem := ih e h hw
        simp only [stepPass]
        by_cases hwf : entInWindow cam f
        · rw [if_pos hwf]
          by_cases hlf : f.handlesLogic
          · rw [if_pos hlf]; exact List.mem_cons_of_mem _ hmem
          · rw [if_neg hlf]; exact hmem
        · rw [if_neg hwf]; exact List.mem_cons_of_mem _ hmem

theorem stepPass_in_window_dispatched (cam : Camera) :
    ∀ (l : List Entity) (e : Entity), e ∈ l → entInWindow cam e = true →
      e ∈ (stepPass cam l).2 := by
  intro l
  induction l with
  | nil => intro e he _; simp at he
  | cons f rest ih =>
      intro e he hw
      rcases List.mem_cons.mp he with h | h
      · subst h
        simp only [stepPass, hw, if_true]
        by_cases hl : e.handlesLogic
        · rw [if_pos hl]; exact List.mem_append_right _ (List.mem_singleton_self e)
        · rw [if_neg hl]; exact List.mem_append_right _ (List.mem_singleton_self e)
      · have hmem := ih e h hw
        simp only [stepPass]
        by_cases hwf : entInWindow cam f
        · rw [if_pos hwf]
          by_cases hlf : f.handlesLogic
          · rw [if_pos hlf]; exact List.mem_append_left _ hmem
          · rw [if_neg hlf]; exact List.mem_append_left _ hmem
        · rw [if_neg hwf]; exact hmem

theorem stepPass_dispatch_count (cam : Camera) (e : Entity)
    (hw : entInWindow cam e = true) :
    ∀ (l : List Entity), (stepPass cam l).2.count e = l.count e := by
  intro l
  induction l with
  | nil => rfl
  | cons f rest ih =>
      simp only [stepPass]
      by_cases hwf : entInWindow cam f
      · rw [if_pos hwf]
        by_cases hlf : f.handlesLogic
        · rw [if_pos hlf]
          simp [List.count_append, List.count_cons, ih]
        · rw [if_neg hlf]
          simp [List.count_append, List.count_cons, ih]
      · rw [if_neg hwf]
        have hne : f ≠ e := by
          intro h; rw [h, hw] at hwf; exact hwf rfl
        simp only [List.count_cons, ih]
        simp [hne, Ne.symm hne]

/-! ### Claim theorems about the scheduler -/

/-- C5: for every tick/logic invocation, after the handler returns the
scheduler's `leftoverTime` field equals zero (the source zeroes it
unconditionally at line 64; nothing later in the handler writes it). -/
theorem tick_resets_leftoverTime (s : SchedState) (d : ℚ) :
    (tick s d).state.leftoverTime = 0 := rfl

/-- C3: the number of executed steps in a single tick (each step being one
registered-entity pass plus one accompanying `check-collision-group`
trigger) equals `min(floor((leftoverTime + deltaT)/stepLength),
maximumStepsPerTick)` and hence never exceeds `maximumStepsPerTick`. -/
theorem tick_step_count (s : SchedState) (d : ℚ)
    (hsl : 0 < s.stepLength) (hlt : 0 ≤ s.leftoverTime) (hd : 0 ≤ d) :
    (tick s d).stepDispatches.length
      = min (⌊(s.leftoverTime + d) / s.stepLength⌋.toNat) s.maximumStepsPerTick ∧
    (tick s d).collisionChecks = (tick s d).stepDispatches.length ∧
    (tick s d).stepDispatches.length ≤ s.maximumStepsPerTick := by
  have hc : 0 ≤ ⌊(s.leftoverTime + d) / s.stepLength⌋ :=
    Int.floor_nonneg.mpr (div_nonneg (by linarith) hsl.le)
  have hlen : (tick s d).stepDispatches.length
      = (min ⌊(s.leftoverTime + d) / s.stepLength⌋ (s.maximumStepsPerTick : ℤ)).toNat := by
    simp only [tick]
    exact iterSteps_snd_length _ _ _ _
  have hmin : (min ⌊(s.leftoverTime + d) / s.stepLength⌋ (s.maximumStepsPerTick : ℤ)).toNat
      = min (⌊(s.leftoverTime + d) / s.stepLength⌋.toNat) s.maximumStepsPerTick := by
    omega
  refine ⟨hlen.trans hmin, ?_, ?_⟩
  · rw [hlen]; rfl
  · rw [hlen.trans hmin]; exact min_le_right _ _

/-- Witness for C3: with the default configuration (`stepLength = 15`,
`maximumStepsPerTick = 10`) a tick of `deltaT = 1000` runs exactly the
capped `10` steps (`floor(1000/15) = 66` is clamped). -/
theorem tick_step_count_witness :
    (tick (mkComponent 15 0) 1000).stepDispatches.length = 10 := by
  have h := (tick_step_count (mkComponent 15 0) 1000
    (by norm_num [mkComponent]) (by norm_num [mkComponent]) (by norm_num)).1
  have hfl : ⌊((mkComponent 15 0).leftoverTime + 1000) / (mkComponent 15 0).stepLength⌋
      = 66 := by
    norm_num [mkComponent]
  rw [h, hfl]
  norm_num [mkComponent]

/-- C4: whenever `cycles = floor((leftoverTime + deltaT)/stepLength) ≥ 1`,
the shared message delta set by the tick equals the accumulated time
divided by the unclamped cycle count, and every `handle-logic` dispatch
of that tick carries exactly that value. -/
theorem tick_adjusted_delta (s : SchedState) (d : ℚ)
    (hc : 1 ≤ ⌊(s.leftoverTime + d) / s.stepLength⌋) :
    (tick s d).state.messageDeltaT
      = JSNum.fin ((s.leftoverTime + d) / (⌊(s.leftoverTime + d) / s.stepLength⌋ : ℚ)) ∧
    ∀ step ∈ (tick s d).stepDispatches, ∀ p ∈ step,
      p.2 = JSNum.fin ((s.leftoverTime + d) / (⌊(s.leftoverTime + d) / s.stepLength⌋ : ℚ)) := by
  have hne : ((⌊(s.leftoverTime + d) / s.stepLength⌋ : ℤ) : ℚ) ≠ 0 := by
    have : (0 : ℤ) < ⌊(s.leftoverTime + d) / s.stepLength⌋ := by omega
    exact_mod_cast this.ne'
  constructor
  · simp only [tick, jsDiv, if_neg hne]
  · intro step hstep p hp
    have hdt := iterSteps_dispatch_delta s.camera
      (jsDiv (s.leftoverTime + d) ((⌊(s.leftoverTime + d) / s.stepLength⌋ : ℤ) : ℚ))
      _ s.entities step hstep p hp
    rw [hdt]
    simp only [jsDiv, if_neg hne]

/-- Witness for C4: with `stepLength = 15`, `leftoverTime = 0` and a tick
of `deltaT = 46`, the cycle count is `3` and the message delta is `46/3`
(not the nominal `15`). -/
theorem tick_adjusted_delta_witness :
    (tick (mkComponent 15 0) 46).state.messageDeltaT = JSNum.fin (46 / 3) ∧
    (46 / 3 : ℚ) ≠ 15 := by
  have hfl : ⌊((mkComponent 15 0).leftoverTime + 46) / (mkComponent 15 0).stepLength⌋
      = 3 := by
    norm_num [mkComponent]
  have h := (tick_adjusted_delta (mkComponent 15 0) 46 (by rw [hfl]; norm_num)).1
  rw [hfl] at h
  refine ⟨?_, by norm_num⟩
  rw [h]
  norm_num [mkComponent]

/-- C1 (evaluation at the failing input): with `stepLength = 15` and
`leftoverTime = 0`, a tick of `deltaT = 1` runs zero steps, but the
source still computes `message.deltaT = 1 / 0` (JavaScript `Infinity`)
and unconditionally zeroes `leftoverTime`, discarding the 1ms residual
instead of preserving it for the next tick. -/
theorem tick_zero_cycles_eval :
    (tick (mkComponent 15 0) 1).collisionChecks = 0 ∧
    (tick (mkComponent 15 0) 1).stepDispatches = [] ∧
    (tick (mkComponent 15 0) 1).state.leftoverTime = 0 ∧
    (tick (mkComponent 15 0) 1).state.messageDeltaT = JSNum.posInf := by
  have hfl : ⌊((mkComponent 15 0).leftoverTime + 1) / (mkComponent 15 0).stepLength⌋
      = 0 := by
    norm_num [mkComponent]
  refine ⟨?_, ?_, rfl, ?_⟩
  · simp only [tick, hfl]
    rfl
  · simp only [tick, hfl]
    rfl
  · simp only [tick, hfl, jsDiv]
    norm_num [mkComponent]

theorem entInWindow_some_iff (cam : Camera) (e : Entity) (xv : ℚ)
    (hx : e.x = some xv) :
    entInWindow cam e = true ↔
      (cam.left - cam.buffer ≤ xv ∧ xv ≤ cam.left + cam.width + cam.buffer ∧
       cam.top - cam.buffer ≤ e.y ∧ e.y ≤ cam.top + cam.height + cam.buffer) := by
  simp [entInWindow, hx, and_assoc]

theorem addIfHandlesLogic_of_mem (e : Entity) :
    ∀ (ids : List String), "handle-logic" ∈ ids →
      ∀ ents, addIfHandlesLogic ents e ids = ents ++ [e] := by
  intro ids
  induction ids with
  | nil => intro h; simp at h
  | cons mid rest ih =>
      intro h ents
      by_cases hm : mid = "handle-logic"
      · simp [addIfHandlesLogic, hm]
      · have hr : "handle-logic" ∈ rest := by
          rcases List.mem_cons.mp h with h' | h'
          · exact absurd h'.symm hm
          · exact h'
        simp only [addIfHandlesLogic, if_neg hm]
        exact ih hr ents

theorem cameraUpdate_buffer_stable (c : Camera) (hc : c.buffer ≠ 0) :
    ∀ ms : List CameraMsg, (List.foldl cameraUpdate c ms).buffer = c.buffer := by
  intro ms
  induction ms generalizing c with
  | nil => rfl
  | cons m rest ih =>
      have hb : (cameraUpdate c m).buffer = c.buffer := by
        simp [cameraUpdate, hc]
      have : (List.foldl cameraUpdate (cameraUpdate c m) rest).buffer
          = (cameraUpdate c m).buffer := ih _ (by rw [hb]; exact hc)
      simpa [hb] using this

/-- C6 counterexample: with no configured buffer (`buffer = 0`), a first
`camera-update` whose viewport width is `0` assigns the default
`width/4 = 0`, and a later `camera-update` with width `100` re-defaults
the buffer to `25` — so the default is not applied exactly once and a
later update does re-default it. -/
theorem camera_buffer_redefault_cex :
    (cameraUpdate (Camera.mk 0 0 0 0 0) (CameraMsg.mk 0 0 0 0)).buffer = 0 ∧
    (cameraUpdate (cameraUpdate (Camera.mk 0 0 0 0 0) (CameraMsg.mk 0 0 0 0))
        (CameraMsg.mk 0 0 100 40)).buffer = 25 := by
  norm_num [cameraUpdate]

/-- C6 (amended): a `camera-update` re-applies the default `width/4`
exactly when the current buffer is zero; hence a nonzero buffer
(explicitly configured, or set by a first update of nonzero width) is
never changed by any later `camera-update`. -/
theorem camera_buffer_default_once (c : Camera) (m : CameraMsg) :
    (c.buffer ≠ 0 → ∀ ms : List CameraMsg,
        (List.foldl cameraUpdate c ms).buffer = c.buffer) ∧
    (c.buffer = 0 → m.viewportWidth ≠ 0 → ∀ ms : List CameraMsg,
        (List.foldl cameraUpdate c (m :: ms)).buffer = m.viewportWidth / 4) := by
  refine ⟨fun hc ms => cameraUpdate_buffer_stable c hc ms, fun hc hw ms => ?_⟩
  have h1 : (cameraUpdate c m).buffer = m.viewportWidth / 4 := by
    simp [cameraUpdate, hc]
  have h2 : (cameraUpdate c m).buffer ≠ 0 := by
    rw [h1]; exact div_ne_zero hw (by norm_num)
  calc (List.foldl cameraUpdate c (m :: ms)).buffer
      = (List.foldl cameraUpdate (cameraUpdate c m) ms).buffer := rfl
    _ = (cameraUpdate c m).buffer := cameraUpdate_buffer_stable _ h2 ms
    _ = m.viewportWidth / 4 := h1

/-- Witness for C6 (amended): an unconfigured buffer is defaulted to
`100/4 = 25` by a first update of width `100` and untouched by a later
update; an explicitly configured buffer `7` survives an update. -/
theorem camera_buffer_default_once_witness :
    (List.foldl cameraUpdate (Camera.mk 0 0 0 0 0)
        [CameraMsg.mk 0 0 100 40, CameraMsg.mk 0 0 8 8]).buffer = 25 ∧
    (List.foldl cameraUpdate (Camera.mk 1 2 3 4 7)
        [CameraMsg.mk 0 0 100 40]).buffer = 7 := by
  constructor
  · have h := (camera_buffer_default_once (Camera.mk 0 0 0 0 0)
      (CameraMsg.mk 0 0 100 40)).2 (by norm_num) (by norm_num)
      [CameraMsg.mk 0 0 8 8]
    rw [h]; norm_num
  · exact (camera_buffer_default_once (Camera.mk 1 2 3 4 7)
      (CameraMsg.mk 0 0 100 40)).1 (by norm_num) _

/-- C7: in a step's entity pass, an entity whose `x` lies outside the
buffered horizontal window (or whose `y` lies outside the symmetric
vertical one) receives no `handle-logic` dispatch yet stays in the
registered list; an entity with undefined `x` is always dispatched. -/
theorem offscreen_entity_skipped (cam : Camera) (l : List Entity) :
    (∀ e ∈ l, ∀ xv : ℚ, e.x = some xv →
        (xv < cam.left - cam.buffer ∨ cam.left + cam.width + cam.buffer < xv ∨
         e.y < cam.top - cam.buffer ∨ cam.top + cam.height + cam.buffer < e.y) →
        e ∉ (stepPass cam l).2 ∧ e ∈ (stepPass cam l).1) ∧
    (∀ e ∈ l, e.x = none → e ∈ (stepPass cam l).2) := by
  constructor
  · intro e he xv hx hout
    have hw : entInWindow cam e = false := by
      rw [← Bool.not_eq_true, entInWindow_some_iff cam e xv hx]
      rintro ⟨h1, h2, h3, h4⟩
      rcases hout with h | h | h | h <;> linarith
    refine ⟨?_, stepPass_out_of_window_kept cam l e he hw⟩
    intro hmem
    have := stepPass_dispatched_in_window cam l e hmem
    rw [this] at hw
    exact Bool.noConfusion hw
  · intro e he hx
    exact stepPass_in_window_dispatched cam l e he (by simp [entInWindow, hx])

/-- Witness for C7: with camera window `[0,100] × [0,50]` and buffer `10`,
the entity at `x = 200` is skipped but kept registered, while the entity
with undefined `x` is dispatched. -/
theorem offscreen_entity_skipped_witness :
    (Entity.mk 1 (some 200) 0 [] true
        ∉ (stepPass (Camera.mk 0 0 100 50 10)
            [Entity.mk 1 (some 200) 0 [] true, Entity.mk 2 none 0 [] true]).2) ∧
    (Entity.mk 1 (some 200) 0 [] true
        ∈ (stepPass (Camera.mk 0 0 100 50 10)
            [Entity.mk 1 (some 200) 0 [] true, Entity.mk 2 none 0 [] true]).1) ∧
    (Entity.mk 2 none 0 [] true
        ∈ (stepPass (Camera.mk 0 0 100 50 10)
            [Entity.mk 1 (some 200) 0 [] true, Entity.mk 2 none 0 [] true]).2) := by
  have h := offscreen_entity_skipped (Camera.mk 0 0 100 50 10)
    [Entity.mk 1 (some 200) 0 [] true, Entity.mk 2 none 0 [] true]
  have h1 := h.1 (Entity.mk 1 (some 200) 0 [] true)
    (List.mem_cons_self _ _) 200 rfl (Or.inr (Or.inl (by norm_num)))
  have h2 := h.2 (Entity.mk 2 none 0 [] true)
    (List.mem_cons_of_mem _ (List.mem_cons_self _ _)) rfl
  exact ⟨h1.1, h1.2, h2⟩

/-- C10: one `child-entity-added` notification appends the entity exactly
once when `'handle-logic'` is among its message ids (the loop breaks at
the first hit, even if the id occurs several times); a second notification
appends it again (no cross-notification deduplication), and in a step's
entity pass an in-window entity is dispatched once per occurrence in the
registered list. -/
theorem child_entity_added_counts (s : SchedState) (e : Entity) (cam : Camera)
    (hm : "handle-logic" ∈ e.messageIds) :
    (childEntityAdded s e).entities.count e = s.entities.count e + 1 ∧
    (childEntityAdded (childEntityAdded s e) e).entities.count e
      = s.entities.count e + 2 ∧
    (entInWindow cam e = true →
      ∀ l : List Entity, (stepPass cam l).2.count e = l.count e) := by
  have hadd : ∀ ents, addIfHandlesLogic ents e e.messageIds = ents ++ [e] :=
    addIfHandlesLogic_of_mem e e.messageIds hm
  refine ⟨?_, ?_, fun hw l => stepPass_dispatch_count cam e hw l⟩
  · simp [childEntityAdded, hadd]
  · simp only [childEntityAdded, hadd]
    simp [List.count_append]

/-- Witness for C10: an entity listing `'handle-logic'` twice is appended
once per notification — one entry after the first delivery, two after the
second — and, registered twice, it is dispatched twice in one pass. -/
theorem child_entity_added_counts_witness :
    ((childEntityAdded (mkComponent 15 0)
        (Entity.mk 3 none 0 ["handle-logic", "handle-logic"] true)).entities.count
        (Entity.mk 3 none 0 ["handle-logic", "handle-logic"] true) = 1) ∧
    ((childEntityAdded (childEntityAdded (mkComponent 15 0)
        (Entity.mk 3 none 0 ["handle-logic", "handle-logic"] true))
        (Entity.mk 3 none 0 ["handle-logic", "handle-logic"] true)).entities.count
        (Entity.mk 3 none 0 ["handle-logic", "handle-logic"] true) = 2) ∧
    ((stepPass (Camera.mk 0 0 0 0 0)
        [Entity.mk 3 none 0 ["handle-logic", "handle-logic"] true,
         Entity.mk 3 none 0 ["handle-logic", "handle-logic"] true]).2.count
        (Entity.mk 3 none 0 ["handle-logic", "handle-logic"] true) = 2) := by
  have h := child_entity_added_counts (mkComponent 15 0)
    (Entity.mk 3 none 0 ["handle-logic", "handle-logic"] true)
    (Camera.mk 0 0 0 0 0) (by simp)
  refine ⟨?_, ?_, ?_⟩
  · rw [h.1]; simp [mkComponent]
  · rw [h.2.1]; simp [mkComponent]
  · have h3 := h.2.2 (by simp [entInWindow])
      [Entity.mk 3 none 0 ["handle-logic", "handle-logic"] true,
       Entity.mk 3 none 0 ["handle-logic", "handle-logic"] true]
    rw [h3]
    simp [List.count_cons]

/-! ### Box algebra -/

theorem includeBox_empty_right (b : Box) : b.includeBox Box.empty = b := by
  cases b <;> rfl

theorem includeBox_empty_left (b : Box) : Box.empty.includeBox b = b := by
  cases b <;> rfl

theorem includeBox_assoc (a b c : Box) :
    (a.includeBox b).includeBox c = a.includeBox (b.includeBox c) := by
  cases a <;> cases b <;> cases c <;>
    simp [Box.includeBox, min_assoc, max_assoc]

theorem foldl_includeBox (xs : List Box) :
    ∀ acc : Box, xs.foldl Box.includeBox acc = acc.includeBox (unionBoxes xs) := by
  induction xs with
  | nil => intro acc; simp [unionBoxes, includeBox_empty_right]
  | cons x rest ih =>
      intro acc
      have h1 : (x :: rest).foldl Box.includeBox acc
          = rest.foldl Box.includeBox (acc.includeBox x) := rfl
      rw [h1, ih]
      have h2 : unionBoxes (x :: rest) = x.includeBox (unionBoxes rest) := by
        have h3 : unionBoxes (x :: rest)
            = rest.foldl Box.includeBox (Box.empty.includeBox x) := rfl
        rw [h3, includeBox_empty_left, ih]
      rw [h2, includeBox_assoc]

theorem unionBoxes_cons (x : Box) (xs : List Box) :
    unionBoxes (x :: xs) = x.includeBox (unionBoxes xs) := by
  have : unionBoxes (x :: xs)
      = xs.foldl Box.includeBox (Box.empty.includeBox x) := rfl
  rw [this, includeBox_empty_left, foldl_includeBox]

theorem unionBoxes_append (xs ys : List Box) :
    unionBoxes (xs ++ ys) = (unionBoxes xs).includeBox (unionBoxes ys) := by
  induction xs with
  | nil => simp [unionBoxes, includeBox_empty_left]
  | cons x rest ih =>
      rw [List.cons_append, unionBoxes_cons, unionBoxes_cons, ih, includeBox_assoc]

/-! ### Collision group membership (C2) -/

/-- C2 counterexample: a single `child-entity-added` / `add-collision-entity`
delivery for an entity declaring two collision types with configured solid
responses pushes the entity twice, so `solidEntities` does contain two
membership entries for it. -/
theorem addCollisionEntity_duplicate_cex :
    (addCollisionEntity [] exEntityAB).countP (fun f => f.eid == exEntityAB.eid) = 2 := by
  simp [addCollisionEntity, addLoop, exEntityAB, List.countP_cons]

theorem addLoop_countP (e : CGEntity) (p : CGEntity → Bool) (hp : p e = true) :
    ∀ (types : List String) (solids : List CGEntity),
      (addLoop e types solids).countP p
        = solids.countP p
          + (if e.immobile then 0
             else types.countP (fun t => decide ((e.solidCollisions t).length ≠ 0))) := by
  intro types
  induction types with
  | nil => intro solids; by_cases h : e.immobile <;> simp [addLoop, h]
  | cons t rest ih =>
      intro solids
      by_cases hi : e.immobile
      · have hcond : ¬ ((e.solidCollisions t).length ≠ 0 ∧ e.immobile = false) := by
          rintro ⟨_, h⟩; rw [hi] at h; exact Bool.noConfusion h
        simp only [addLoop, if_neg hcond]
        rw [ih]
        simp [hi]
      · by_cases hlen : (e.solidCollisions t).length = 0
        · have hcond : ¬ ((e.solidCollisions t).length ≠ 0 ∧ e.immobile = false) := by
            rintro ⟨h, _⟩; exact h hlen
          have hdec : decide ((e.solidCollisions t).length ≠ 0) = false := by
            simp [hlen]
          simp only [addLoop, if_neg hcond]
          rw [ih]
          simp only [if_neg hi, List.countP_cons, hdec]
          simp
        · have hcond : ((e.solidCollisions t).length ≠ 0 ∧ e.immobile = false) :=
            ⟨hlen, by simp [hi]⟩
          have hdec : decide ((e.solidCollisions t).length ≠ 0) = true :=
            decide_eq_true hlen
          simp only [addLoop, if_pos hcond]
          rw [ih]
          simp only [if_neg hi, List.countP_append, List.countP_cons, hdec, hp,
            List.countP_nil]
          simp
          omega

theorem addLoop_length (e : CGEntity) :
    ∀ (types : List String) (solids : List CGEntity),
      (addLoop e types solids).length
        = solids.length
          + (if e.immobile then 0
             else types.countP (fun t => decide ((e.solidCollisions t).length ≠ 0))) := by
  intro types
  induction types with
  | nil => intro solids; by_cases h : e.immobile <;> simp [addLoop, h]
  | cons t rest ih =>
      intro solids
      by_cases hi : e.immobile
      · have hcond : ¬ ((e.solidCollisions t).length ≠ 0 ∧ e.immobile = false) := by
          rintro ⟨_, h⟩; rw [hi] at h; exact Bool.noConfusion h
        simp only [addLoop, if_neg hcond]
        rw [ih]
        simp [hi]
      · by_cases hlen : (e.solidCollisions t).length = 0
        · have hcond : ¬ ((e.solidCollisions t).length ≠ 0 ∧ e.immobile = false) := by
            rintro ⟨h, _⟩; exact h hlen
          have hdec : decide ((e.solidCollisions t).length ≠ 0) = false := by
            simp [hlen]
          simp only [addLoop, if_neg hcond]
          rw [ih]
          simp only [if_neg hi, List.countP_cons, hdec]
          simp
        · have hcond : ((e.solidCollisions t).length ≠ 0 ∧ e.immobile = false) :=
            ⟨hlen, by simp [hi]⟩
          have hdec : decide ((e.solidCollisions t).length ≠ 0) = true :=
            decide_eq_true hlen
          simp only [addLoop, if_pos hcond]
          rw [ih]
          simp only [if_neg hi, List.countP_cons, hdec, List.length_append,
            List.length_cons, List.length_nil]
          simp
          omega

/-- C2 (amended): `addCollisionEntity` appends the entity once per
declared collision type whose `solidCollisions` list is nonempty (zero
times when the entity is immobile or declares no `collisionTypes`); there
is no duplicate suppression, so an entity with two qualifying types gains
two membership entries from a single delivery. -/
theorem addCollisionEntity_per_type (solids : List CGEntity) (e : CGEntity) :
    (addCollisionEntity solids e).countP (fun f => f.eid == e.eid)
      = solids.countP (fun f => f.eid == e.eid) + qualifyingCount e ∧
    (addCollisionEntity solids e).length = solids.length + qualifyingCount e := by
  constructor
  · cases h : e.collisionTypes with
    | none => simp [addCollisionEntity, h, qualifyingCount]
    | some types =>
        simp only [addCollisionEntity, h, qualifyingCount]
        exact addLoop_countP e _ (by simp) types solids
  · cases h : e.collisionTypes with
    | none => simp [addCollisionEntity, h, qualifyingCount]
    | some types =>
        simp only [addCollisionEntity, h, qualifyingCount]
        exact addLoop_length e types solids

/-! ### Filtered AABB queries (C9) -/

theorem unionBoxes_singleton (b : Box) : unionBoxes [b] = b := by
  have h : unionBoxes [b] = Box.empty.includeBox b := rfl
  rw [h, includeBox_empty_left]

mutual
theorem gtGetAABB_leafUnion : ∀ (g : GTree) (t : String), ¬ t = "" →
    gtGetAABB g (some t) = unionBoxes (gtLeafBoxes g t)
  | GTree.node own aabb prev ms, t, ht => by
      have hfal : ctFalsy (some t) = false := by simp [ctFalsy, ht]
      simp only [gtGetAABB, gtLeafBoxes, hfal, Bool.false_eq_true, if_false]
      rw [membersAABB_leafUnion own ms t ht Box.empty, includeBox_empty_left]

theorem membersAABB_leafUnion : ∀ (own : ℕ) (ms : Members) (t : String), ¬ t = "" →
    ∀ acc : Box, membersAABB own ms (some t) acc
      = acc.includeBox (unionBoxes (membersLeafBoxes own ms t))
  | own, Members.nil, t, ht, acc => by
      simp [membersAABB, membersLeafBoxes, unionBoxes, includeBox_empty_right]
  | own, Members.plain e ms, t, ht, acc => by
      simp only [membersAABB, membersLeafBoxes, entGetAABB]
      rw [membersAABB_leafUnion own ms t ht, unionBoxes_cons, includeBox_assoc]
  | own, Members.grouped e g ms, t, ht, acc => by
      by_cases hid : (e.eid == own) = true
      · simp only [membersAABB, membersLeafBoxes, entGetAABB, hid, if_true]
        rw [membersAABB_leafUnion own ms t ht, unionBoxes_append,
          unionBoxes_singleton, includeBox_assoc]
      · simp only [membersAABB, membersLeafBoxes, entGetAABB, hid,
          Bool.false_eq_true, if_false]
        rw [gtGetAABB_leafUnion g t ht, membersAABB_leafUnion own ms t ht,
          unionBoxes_append, includeBox_assoc]
end

mutual
theorem gtGetPrevAABB_leafUnion : ∀ (g : GTree) (t : String), ¬ t = "" →
    gtGetPrevAABB g (some t) = unionBoxes (gtPrevLeafBoxes g t)
  | GTree.node own aabb prev ms, t, ht => by
      have hfal : ctFalsy (some t) = false := by simp [ctFalsy, ht]
      simp only [gtGetPrevAABB, gtPrevLeafBoxes, hfal, Bool.false_eq_true, if_false]
      rw [membersPrevAABB_leafUnion own ms t ht Box.empty, includeBox_empty_left]

theorem membersPrevAABB_leafUnion : ∀ (own : ℕ) (ms : Members) (t : String), ¬ t = "" →
    ∀ acc : Box, membersPrevAABB own ms (some t) acc
      = acc.includeBox (unionBoxes (membersPrevLeafBoxes own ms t))
  | own, Members.nil, t, ht, acc => by
      simp [membersPrevAABB, membersPrevLeafBoxes, unionBoxes, includeBox_empty_right]
  | own, Members.plain e ms, t, ht, acc => by
      simp only [membersPrevAABB, membersPrevLeafBoxes, entGetPrevAABB]
      rw [membersPrevAABB_leafUnion own ms t ht, unionBoxes_cons, includeBox_assoc]
  | own, Members.grouped e g ms, t, ht, acc => by
      by_cases hid : (e.eid == own) = true
      · simp only [membersPrevAABB, membersPrevLeafBoxes, entGetPrevAABB, hid, if_true]
        rw [membersPrevAABB_leafUnion own ms t ht, unionBoxes_append,
          unionBoxes_singleton, includeBox_assoc]
      · simp only [membersPrevAABB, membersPrevLeafBoxes, entGetPrevAABB, hid,
          Bool.false_eq_true, if_false]
        rw [gtGetPrevAABB_leafUnion g t ht, membersPrevAABB_leafUnion own ms t ht,
          unionBoxes_append, includeBox_assoc]
end

/-- C9: `getAABB`/`getPreviousAABB` called with a (non-falsy)
collision-type filter return the union of the matching member boxes
across every nesting level — built in a fresh box, recursing into a
member's nested collision group exactly when the member is not the owner
— while a call with no filter returns the cached aggregate box
(`this.aabb` / `this.prevAABB`).  The embedded queries are pure functions
of the group, mirroring that the source performs no assignment to group
or member state in these methods. -/
theorem getAABB_filtered_query (g : GTree) (t : String) (ht : t ≠ "") :
    gtGetAABB g (some t) = unionBoxes (gtLeafBoxes g t) ∧
    gtGetPrevAABB g (some t) = unionBoxes (gtPrevLeafBoxes g t) ∧
    gtGetAABB g none = g.cachedAABB ∧
    gtGetPrevAABB g none = g.cachedPrevAABB := by
  refine ⟨gtGetAABB_leafUnion g t ht, gtGetPrevAABB_leafUnion g t ht, ?_, ?_⟩
  · cases g with
    | node own a p ms => rfl
  · cases g with
    | node own a p ms => rfl

/-- Witness for C9 on the two-level platform/box/passenger example: the
filtered query equals the union of the leaf boxes — concretely the
enclosing box `[0,10] × [0,6]` — and the unfiltered query returns the
cached (deliberately different) boxes. -/
theorem getAABB_filtered_query_witness :
    gtGetAABB outerW (some "solid") = unionBoxes (gtLeafBoxes outerW "solid") ∧
    gtGetAABB outerW (some "solid") = Box.rect 0 10 0 6 ∧
    gtGetAABB outerW none = Box.rect (-1) 11 (-1) 7 ∧
    gtGetPrevAABB outerW none = Box.rect (-2) 12 (-2) 8 := by
  have h := getAABB_filtered_query outerW "solid" (by simp)
  refine ⟨h.1, ?_, ?_, ?_⟩
  · rw [h.1]
    norm_num [outerW, innerW, ePlatW, eBoxW, ePassW, gtLeafBoxes,
      membersLeafBoxes, unionBoxes, Box.includeBox, min_def, max_def]
  · have h3 := h.2.2.1
    rw [h3]
    rfl
  · have h4 := h.2.2.2
    rw [h4]
    rfl

/-! ### Relocation protocol lemmas (C8) -/

theorem relocStep_saves (own : REnt) (vx vy : ℚ) (i o : ℕ) (e : REnt) :
    (relocStep own vx vy i o e).saveDX = e.saveDX ∧
    (relocStep own vx vy i o e).saveDY = e.saveDY ∧
    (relocStep own vx vy i o e).saveOX = e.saveOX ∧
    (relocStep own vx vy i o e).saveOY = e.saveOY := by
  unfold relocStep entRelocate
  by_cases h : i = o <;> simp [h]

theorem relocStep_pos (own : REnt) (vx vy : ℚ) (i o : ℕ) (e : REnt) :
    (relocStep own vx vy i o e).x
      = vx - e.saveOX + e.saveDX + (if i = o then 0 else own.saveDX) ∧
    (relocStep own vx vy i o e).y
      = vy - e.saveOY + e.saveDY + (if i = o then 0 else own.saveDY) := by
  unfold relocStep entRelocate
  by_cases h : i = o <;> simp [h]

theorem updStore_relocStep_saves (s : ℕ → REnt) (k o : ℕ) (vx vy : ℚ) (j : ℕ) :
    ((updStore s k (relocStep (s o) vx vy k o (s k))) j).saveDX = (s j).saveDX ∧
    ((updStore s k (relocStep (s o) vx vy k o (s k))) j).saveDY = (s j).saveDY ∧
    ((updStore s k (relocStep (s o) vx vy k o (s k))) j).saveOX = (s j).saveOX ∧
    ((updStore s k (relocStep (s o) vx vy k o (s k))) j).saveOY = (s j).saveOY := by
  rcases relocStep_saves (s o) vx vy k o (s k) with ⟨p1, p2, p3, p4⟩
  by_cases hj : j = k
  · subst hj; simp [updStore, p1, p2, p3, p4]
  · simp [updStore, hj]

theorem relocLoop_saves (o : ℕ) (vx vy : ℚ) :
    ∀ (L : List ℕ) (s : ℕ → REnt) (j : ℕ),
      ((relocLoop o vx vy L s) j).saveDX = (s j).saveDX ∧
      ((relocLoop o vx vy L s) j).saveDY = (s j).saveDY ∧
      ((relocLoop o vx vy L s) j).saveOX = (s j).saveOX ∧
      ((relocLoop o vx vy L s) j).saveOY = (s j).saveOY := by
  intro L
  induction L with
  | nil => intro s j; exact ⟨rfl, rfl, rfl, rfl⟩
  | cons k rest ih =>
      intro s j
      rcases ih (updStore s k (relocStep (s o) vx vy k o (s k))) j with ⟨h1, h2, h3, h4⟩
      rcases updStore_relocStep_saves s k o vx vy j with ⟨u1, u2, u3, u4⟩
      exact ⟨by rw [relocLoop, h1, u1], by rw [relocLoop, h2, u2],
             by rw [relocLoop, h3, u3], by rw [relocLoop, h4, u4]⟩

theorem relocLoop_frame (o : ℕ) (vx vy : ℚ) :
    ∀ (L : List ℕ) (s : ℕ → REnt) (j : ℕ), j ∉ L →
      (relocLoop o vx vy L s) j = s j := by
  intro L
  induction L with
  | nil => intro s j _; rfl
  | cons k rest ih =>
      intro s j hj
      have hjk : j ≠ k := fun h => hj (h ▸ List.mem_cons_self k rest)
      have hjr : j ∉ rest := fun h => hj (List.mem_cons_of_mem k h)
      rw [relocLoop, ih _ j hjr]
      simp [updStore, hjk]

theorem relocLoop_mem_pos (o : ℕ) (vx vy : ℚ) :
    ∀ (L : List ℕ) (s : ℕ → REnt) (i : ℕ), i ∈ L →
      ((relocLoop o vx vy L s) i).x
        = vx - (s i).saveOX + (s i).saveDX + (if i = o then 0 else (s o).saveDX) ∧
      ((relocLoop o vx vy L s) i).y
        = vy - (s i).saveOY + (s i).saveDY + (if i = o then 0 else (s o).saveDY) := by
  intro L
  induction L with
  | nil => intro s i hi; simp at hi
  | cons k rest ih =>
      intro s i hi
      by_cases hir : i ∈ rest
      · rcases ih (updStore s k (relocStep (s o) vx vy k o (s k))) i hir with ⟨h1, h2⟩
        rcases updStore_relocStep_saves s k o vx vy i with ⟨ui1, ui2, ui3, ui4⟩
        rcases updStore_relocStep_saves s k o vx vy o with ⟨uo1, uo2, _, _⟩
        rw [relocLoop] at *
        rw [h1, h2, ui1, ui2, ui3, ui4, uo1, uo2]
        exact ⟨rfl, rfl⟩
      · have hik : i = k := by
          rcases List.mem_cons.mp hi with h | h
          · exact h
          · exact absurd h hir
        subst hik
        rw [relocLoop, relocLoop_frame o vx vy rest _ i hir]
        have hupd : (updStore s i (relocStep (s o) vx vy i o (s i))) i
            = relocStep (s o) vx vy i o (s i) := by simp [updStore]
        rw [hupd]
        exact relocStep_pos (s o) vx vy i o (s i)

/-- C8: when the owner appears as the colliding shape in some x-axis entry
of the collision data but in no y-axis entry, `relocateEntity` zeroes the
owner's carried x-delta while the y-delta is still computed (as the saved
delta minus the owner's proposed y-displacement) and propagated: every
non-owner member ends at the translated vector plus its own saved delta
plus the owner's (zero x, computed y) delta, and the owner-as-member
receives only its own saved delta. -/
theorem relocateEntity_axis_zeroing (g : RelocGroup) (vx vy : ℚ) (cd : CData)
    (hx : cd.xOwners.contains g.ownerId = true)
    (hy : cd.yOwners.contains g.ownerId = false) :
    ((relocateEntity g vx vy cd).store g.ownerId).saveDX = 0 ∧
    ((relocateEntity g vx vy cd).store g.ownerId).saveDY
      = (g.store g.ownerId).saveDY - (vy - (g.store g.ownerId).previousY) ∧
    (∀ i ∈ g.memberIds, i ≠ g.ownerId →
       ((relocateEntity g vx vy cd).store i).x
         = vx - (g.store i).saveOX + (g.store i).saveDX ∧
       ((relocateEntity g vx vy cd).store i).y
         = vy - (g.store i).saveOY + (g.store i).saveDY
           + ((g.store g.ownerId).saveDY - (vy - (g.store g.ownerId).previousY))) ∧
    (g.ownerId ∈ g.memberIds →
       ((relocateEntity g vx vy cd).store g.ownerId).x
         = vx - (g.store g.ownerId).saveOX ∧
       ((relocateEntity g vx vy cd).store g.ownerId).y
         = vy - (g.store g.ownerId).saveOY
           + ((g.store g.ownerId).saveDY - (vy - (g.store g.ownerId).previousY))) := by
  have hstore : (relocateEntity g vx vy cd).store
      = relocLoop g.ownerId vx vy g.memberIds
          (updStore g.store g.ownerId
            { g.store g.ownerId with
                saveDX := 0
                saveDY := (g.store g.ownerId).saveDY
                  - (vy - (g.store g.ownerId).previousY) }) := by
    simp only [relocateEntity, hx, hy]
    simp
  set ow3 : REnt :=
    { g.store g.ownerId with
        saveDX := 0
        saveDY := (g.store g.ownerId).saveDY - (vy - (g.store g.ownerId).previousY) }
    with how3
  set s1 : ℕ → REnt := updStore g.store g.ownerId ow3 with hs1
  have hs1own : s1 g.ownerId = ow3 := by simp [hs1, updStore]
  have hs1other : ∀ i, i ≠ g.ownerId → s1 i = g.store i := by
    intro i hi; simp [hs1, updStore, hi]
  refine ⟨?_, ?_, ?_, ?_⟩
  · rw [hstore, (relocLoop_saves g.ownerId vx vy g.memberIds s1 g.ownerId).1, hs1own]
  · rw [hstore, (relocLoop_saves g.ownerId vx vy g.memberIds s1 g.ownerId).2.1, hs1own]
  · intro i hi hne
    rcases relocLoop_mem_pos g.ownerId vx vy g.memberIds s1 i hi with ⟨h1, h2⟩
    rw [hs1other i hne, hs1own, if_neg hne] at h1 h2
    rw [hstore, h1, h2]
    constructor
    · show vx - (g.store i).saveOX + (g.store i).saveDX + ow3.saveDX
          = vx - (g.store i).saveOX + (g.store i).saveDX
      rw [how3]
      simp
    · rfl
  · intro hmem
    rcases relocLoop_mem_pos g.ownerId vx vy g.memberIds s1 g.ownerId hmem with ⟨h1, h2⟩
    rw [hs1own, if_pos rfl] at h1 h2
    rw [hstore, h1, h2]
    constructor
    · show vx - ow3.saveOX + ow3.saveDX + 0 = vx - (g.store g.ownerId).saveOX
      rw [how3]
      simp
    · show vy - ow3.saveOY + ow3.saveDY + 0
          = vy - (g.store g.ownerId).saveOY
            + ((g.store g.ownerId).saveDY - (vy - (g.store g.ownerId).previousY))
      rw [how3]
      simp

/-- Witness for C8: on the concrete group `relocW` (owner id 0 with saved
deltas (10, 20), previous position (1, 2); member id 1 with saved deltas
(3, 4) and offsets (2, 1)), relocating to `(5, 7)` with the owner in one
x-entry and no y-entry zeroes the owner's x-delta, computes the owner's
y-delta `20 - (7 - 2) = 15`, and yields member position `(6, 25)` and
owner position `(5, 22)`. -/
theorem relocateEntity_axis_zeroing_witness :
    ((relocateEntity relocW 5 7 cdW).store 0).saveDX = 0 ∧
    ((relocateEntity relocW 5 7 cdW).store 0).saveDY = 15 ∧
    ((relocateEntity relocW 5 7 cdW).store 1).x = 6 ∧
    ((relocateEntity relocW 5 7 cdW).store 1).y = 25 ∧
    ((relocateEntity relocW 5 7 cdW).store 0).x = 5 ∧
    ((relocateEntity relocW 5 7 cdW).store 0).y = 22 := by
  have h := relocateEntity_axis_zeroing relocW 5 7 cdW (by decide) (by decide)
  have hm := h.2.2.1 1 (by decide) (by decide)
  have ho := h.2.2.2 (by decide)
  exact ⟨h.1, h.2.1.trans (by norm_num [relocW]),
         hm.1.trans (by norm_num [relocW]), hm.2.trans (by norm_num [relocW]),
         ho.1.trans (by norm_num [relocW]), ho.2.trans (by norm_num [relocW])⟩

end Platypus
